import Mathlib

/-!
Verification development for the drivelology batch-classification scripts
(`run_deepseek.py` and `run_gpt.py`).  Strings are modelled as `List Char`;
the completion-store file is modelled as the list of characters of its
content; the external LLM call is an oracle parameter returning
`Option Classification` (`none` = any classification failure).
-/

namespace Drivel

/-- Characters stripped by Python `str.strip()` (ASCII whitespace). -/
def isPySpace (c : Char) : Bool :=
  c == ' ' || c == '\t' || c == '\n' || c == '\r' || c == '\x0b' || c == '\x0c'

/-- Model of Python `str.strip()`: drop leading and trailing whitespace. -/
def pyStrip (s : List Char) : List Char :=
  ((s.dropWhile isPySpace).reverse.dropWhile isPySpace).reverse

/-- Model of Python `str.split(sep)` for a one-character separator `c`. -/
def splitOnC (c : Char) : List Char → List (List Char)
  | [] => [[]]
  | x :: xs =>
    if x = c then [] :: splitOnC c xs
    else
      match splitOnC c xs with
      | [] => [[x]]
      | y :: ys => (x :: y) :: ys

/-- Model of Python `f.readlines()` followed by per-line processing: the
file content split at newline characters, without a trailing empty piece
when the content ends in a newline (readlines yields no empty final line). -/
def fileLines (s : List Char) : List (List Char) :=
  let ps := splitOnC '\n' s
  if ps.getLast? = some [] then ps.dropLast else ps

/-! ## Data model (from the scripts' row handling and write format) -/

/-- A row from the worksheet: `id`, `text`, `created_datetime`,
`modified_datetime` (all modelled as character lists). -/
structure Record where
  id : List Char
  text : List Char
  created : List Char
  modified : List Char
deriving DecidableEq

/-- The validated response shape `DrivelologyResponseModel`:
`reason : str`, `category : str`. -/
structure Classification where
  reason : List Char
  category : List Char
deriving DecidableEq

/-- A raw response payload before pydantic validation: each of the two
fields may be absent. -/
structure RawPayload where
  reason : Option (List Char)
  category : Option (List Char)
deriving DecidableEq

/-- Pydantic validation of the payload against `DrivelologyResponseModel`:
both string fields must be present; no other constraint is imposed. -/
def validatePayload (p : RawPayload) : Option Classification :=
  match p.reason, p.category with
  | some r, some c => some { reason := r, category := c }
  | _, _ => none

/-- The seven category names offered by the prompt, lowercased as the
prompt instructs the model to answer. -/
def categoryNames : List String :=
  ["reverse punchline", "figurative literalism or homophonic pun",
   "cultural or linguistic switchbait", "inevitable contradiction",
   "semantic misdirection", "pure nonsense", "normal sentence"]

def sevenCategories : List (List Char) := categoryNames.map String.toList

/-- Model of `text.replace('\n', ' ')`. -/
def sanitizeText (s : List Char) : List Char :=
  s.map (fun c => if c = '\n' then ' ' else c)

/-- The per-record preprocessing done by both scripts before the skip
check: newlines in `text` replaced by spaces. -/
def sanitize (r : Record) : Record := { r with text := sanitizeText r.text }

/-- The tab-joined six fields of one completion-store row, as written by
`f.write(f"{id}\t{text}\t{created_datetime}\t{modified_datetime}\t{reason}\t{category}\n")`
(without the trailing newline). -/
def entryBody (r : Record) (c : Classification) : List Char :=
  r.id ++ '\t' :: (r.text ++ '\t' :: (r.created ++ '\t' :: (r.modified ++
    '\t' :: (c.reason ++ '\t' :: c.category))))

/-- One appended completion-store line, including its terminating newline. -/
def entryLine (r : Record) (c : Classification) : List Char :=
  entryBody r c ++ ['\n']

/-! ## Completion-store loading (lines 162-168 of run_deepseek.py,
lines 60-65 of run_gpt.py) -/

/-- Parse one store line the way the load loop does:
`id, text, created_datetime, modified_datetime, reason, category = line.strip().split('\t')`.
The unpacking succeeds only for exactly six fields; its first component is
the id added to `exist_ids`.  A wrong field count raises (models `none`). -/
def parseLine (l : List Char) : Option (List Char) :=
  match splitOnC '\t' (pyStrip l) with
  | [a, _, _, _, _, _] => some a
  | _ => none

/-- Parse every line; the whole load is fatal as soon as one line is
malformed (the unpacking raises and nothing catches it). -/
def loadIds : List (List Char) → Option (List (List Char))
  | [] => some []
  | l :: ls =>
    match parseLine l, loadIds ls with
    | some i, some is => some (i :: is)
    | _, _ => none

/-- Load the set of already-completed ids from the store file content. -/
def loadExistIds (content : List Char) : Option (List (List Char)) :=
  loadIds (fileLines content)

/-- Startup load in run_gpt.py: the store file is opened for reading
unconditionally, so a missing file (`none`) is a fatal error. -/
def loadGpt (file : Option (List Char)) : Option (List (List Char)) :=
  match file with
  | none => none
  | some content => loadExistIds content

/-- Startup load in run_deepseek.py: guarded by `os.path.exists`, so a
missing file yields the empty completed set. -/
def loadDeepseek (file : Option (List Char)) : Option (List (List Char)) :=
  loadExistIds (file.getD [])

/-! ## Key pool (lines 147-153 of run_deepseek.py) -/

/-- The key pool: non-blank stripped lines of `openrouter.txt`, collected
into a Python `set` and then turned into a list.  The `set` collapses
duplicates and its iteration order is unspecified; the model fixes one
admissible enumeration (`dedup`), which is faithful for membership,
length and duplicate-freedom but not for any particular order. -/
def keyPoolOf (content : List Char) : List (List Char) :=
  (((fileLines content).map pyStrip).filter (fun l => !l.isEmpty)).dedup

/-! ## Batch driver (run_deepseek.py main loop, lines 170-224) -/

/-- The per-record failover loop `for attempt in range(len(api_key_pool))`:
try the credential at the rotating index; on success stop (the pointer is
left where it is); on failure advance the pointer modulo the pool size and
retry.  Returns the classification (if any), the final pointer, and the
list of credentials attempted in order. -/
def rotateAttempts (oracle : List Char → Option Classification)
    (pool : List (List Char)) :
    Nat → Nat → Option Classification × Nat × List (List Char)
  | idx, 0 => (none, idx, [])
  | idx, fuel + 1 =>
    match oracle (pool.getD idx []) with
    | some c => (some c, idx, [pool.getD idx []])
    | none =>
      let rest := rotateAttempts oracle pool ((idx + 1) % pool.length) fuel
      (rest.1, rest.2.1, pool.getD idx [] :: rest.2.2)

/-- Processing of a single record by the key-pool driver: sanitize the
text, skip if the id is already in the completed set, otherwise run the
failover loop and append one line on success.  Returns the new store
content, the new pointer, and the credentials attempted. -/
def stepRecord (classify : Record → List Char → Option Classification)
    (pool : List (List Char)) (existIds : List (List Char))
    (r0 : Record) (store : List Char) (keyIdx : Nat) :
    List Char × Nat × List (List Char) :=
  let r := sanitize r0
  if r.id ∈ existIds then (store, keyIdx, [])
  else
    let a := rotateAttempts (classify r) pool keyIdx pool.length
    match a.1 with
    | none => (store, a.2.1, a.2.2)
    | some c => (store ++ entryLine r c, a.2.1, a.2.2)

/-- The main loop over all records, threading the store content and the
rotating pointer; the third component counts classification attempts. -/
def runRecords (classify : Record → List Char → Option Classification)
    (pool : List (List Char)) (existIds : List (List Char)) :
    List Record → List Char → Nat → List Char × Nat × Nat
  | [], store, idx => (store, idx, 0)
  | r :: rs, store, idx =>
    let s := stepRecord classify pool existIds r store idx
    let t := runRecords classify pool existIds rs s.1 s.2.1
    (t.1, t.2.1, s.2.2.length + t.2.2)

/-- The successful (record, classification) pairs appended by the main
loop, in order. -/
def appendedEntries (classify : Record → List Char → Option Classification)
    (pool : List (List Char)) (existIds : List (List Char)) :
    List Record → Nat → List (Record × Classification)
  | [], _ => []
  | r0 :: rs, idx =>
    let r := sanitize r0
    if r.id ∈ existIds then appendedEntries classify pool existIds rs idx
    else
      let a := rotateAttempts (classify r) pool idx pool.length
      match a.1 with
      | none => appendedEntries classify pool existIds rs a.2.1
      | some c => (r, c) :: appendedEntries classify pool existIds rs a.2.1

/-- One whole run of run_deepseek.py over the given records and store file
(`none` = file absent): load the completed-id set (empty when the file is
absent), then run the main loop with the pointer starting at 0.  `none`
means the run aborted during the load. -/
def runDeepseekTop (classify : Record → List Char → Option Classification)
    (pool : List (List Char)) (records : List Record)
    (file : Option (List Char)) : Option (List Char) :=
  match loadExistIds (file.getD []) with
  | none => none
  | some ids => some (runRecords classify pool ids records (file.getD []) 0).1

/-- Sequential runs over an unchanged row source: each run reloads the
store written by the previous one; a run that aborts leaves the store
unchanged. -/
def iterRuns (pool : List (List Char)) (records : List Record) :
    List (Record → List Char → Option Classification) → List Char → List Char
  | [], s => s
  | f :: fs, s =>
    match runDeepseekTop f pool records (some s) with
    | none => s
    | some s2 => iterRuns pool records fs s2

/-- The ids of the store's lines as the load step parses them. -/
def storeIds (s : List Char) : List (List Char) :=
  (fileLines s).map (fun l => (splitOnC '\t' (pyStrip l)).headD [])

/-- The single-credential main loop of run_gpt.py: no failover, a
classification failure is an uncaught exception that terminates the run
(the store keeps whatever was appended before the failure). -/
def runGptRecords (classify : Record → Option Classification)
    (existIds : List (List Char)) :
    List Record → List Char → Except (List Char) (List Char)
  | [], store => Except.ok store
  | r0 :: rs, store =>
    let r := sanitize r0
    if r.id ∈ existIds then runGptRecords classify existIds rs store
    else
      match classify r with
      | none => Except.error store
      | some c => runGptRecords classify existIds rs (store ++ entryLine r c)

/-! ## Field-cleanliness predicates used by the amended claims -/

/-- A field value free of the tab delimiter and of newlines. -/
def noTabNlB (s : List Char) : Bool :=
  decide ('\t' ∉ s) && decide ('\n' ∉ s)

/-- Nonempty with a non-whitespace first character (so that a line-level
strip does not eat into the field). -/
def headNonSpaceB (s : List Char) : Bool :=
  match s with
  | [] => false
  | c :: _ => !(isPySpace c)

/-- Nonempty with a non-whitespace last character. -/
def lastNonSpaceB (s : List Char) : Bool :=
  headNonSpaceB s.reverse

/-- A worksheet row whose stored line round-trips through the load parser:
no delimiter or newline inside `id`, `created_datetime`,
`modified_datetime`; no delimiter inside `text` (newlines there are
normalized away); `id` starts with a non-whitespace character. -/
def cleanRecordB (r : Record) : Bool :=
  noTabNlB r.id && headNonSpaceB r.id && decide ('\t' ∉ r.text) &&
    noTabNlB r.created && noTabNlB r.modified

/-- A record as stored (text already newline-free). -/
def cleanStoredB (r : Record) : Bool :=
  cleanRecordB r && decide ('\n' ∉ r.text)

/-- A classifier result whose stored line round-trips: no delimiter or
newline inside `reason` or `category`, and `category` ends with a
non-whitespace character. -/
def cleanClsB (c : Classification) : Bool :=
  noTabNlB c.reason && noTabNlB c.category && lastNonSpaceB c.category

theorem splitOnC_ne_nil (c : Char) (s : List Char) : splitOnC c s ≠ [] := by
  cases s with
  | nil => simp [splitOnC]
  | cons x xs =>
    simp only [splitOnC]
    split
    · simp
    · split
      · simp
      · simp

theorem splitOnC_of_not_mem (c : Char) (s : List Char) (h : c ∉ s) :
    splitOnC c s = [s] := by
  induction s with
  | nil => rfl
  | cons x xs ih =>
    have hx : ¬ x = c := by
      intro hx; exact h (by simp [hx])
    have hxs : c ∉ xs := fun hm => h (List.mem_cons_of_mem _ hm)
    simp only [splitOnC, if_neg hx, ih hxs]

theorem splitOnC_append (c : Char) (a b : List Char) (h : c ∉ a) :
    splitOnC c (a ++ c :: b) = a :: splitOnC c b := by
  induction a with
  | nil => simp [splitOnC]
  | cons x xs ih =>
    have hx : ¬ x = c := by
      intro hx; exact h (by simp [hx])
    have hxs : c ∉ xs := fun hm => h (List.mem_cons_of_mem _ hm)
    have hs := ih hxs
    simp only [List.cons_append, splitOnC, if_neg hx, List.append_eq, hs]

theorem splitOnC_flatten (bodies : List (List Char))
    (h : ∀ b ∈ bodies, '\n' ∉ b) :
    splitOnC '\n' ((bodies.map (fun b => b ++ ['\n'])).flatten) = bodies ++ [[]] := by
  induction bodies with
  | nil => simp [splitOnC]
  | cons b bs ih =>
    have hb : '\n' ∉ b := h b (by simp)
    have hbs : ∀ x ∈ bs, '\n' ∉ x := fun x hx => h x (by simp [hx])
    have ha : (b ++ ['\n']) ++ (bs.map (fun x => x ++ ['\n'])).flatten =
        b ++ '\n' :: (bs.map (fun x => x ++ ['\n'])).flatten := by
      simp
    simp only [List.map_cons, List.flatten_cons, ha, splitOnC_append '\n' b _ hb,
      ih hbs, List.cons_append]

theorem getLast?_concat_eq {α : Type} (l : List α) (a : α) :
    (l ++ [a]).getLast? = some a := by
  rw [List.getLast?_append_cons]
  rfl

theorem fileLines_flatten (bodies : List (List Char))
    (h : ∀ b ∈ bodies, '\n' ∉ b) :
    fileLines ((bodies.map (fun b => b ++ ['\n'])).flatten) = bodies := by
  unfold fileLines
  rw [splitOnC_flatten bodies h]
  simp [getLast?_concat_eq, List.dropLast_concat]

theorem dropWhile_eq_self_of_head (s : List Char)
    (h : headNonSpaceB s = true) : s.dropWhile isPySpace = s := by
  cases s with
  | nil => rfl
  | cons c t =>
    simp only [headNonSpaceB, Bool.not_eq_true'] at h
    simp [List.dropWhile_cons, h]

theorem pyStrip_eq_self (s : List Char) (h1 : headNonSpaceB s = true)
    (h2 : lastNonSpaceB s = true) : pyStrip s = s := by
  unfold pyStrip
  rw [dropWhile_eq_self_of_head s h1,
    dropWhile_eq_self_of_head s.reverse h2, List.reverse_reverse]

theorem headNonSpaceB_append (a b : List Char)
    (h : headNonSpaceB a = true) : headNonSpaceB (a ++ b) = true := by
  cases a with
  | nil => simp [headNonSpaceB] at h
  | cons c t => simpa [headNonSpaceB] using h

theorem lastNonSpaceB_append (a b : List Char)
    (h : lastNonSpaceB b = true) : lastNonSpaceB (a ++ b) = true := by
  unfold lastNonSpaceB at *
  rw [List.reverse_append]
  exact headNonSpaceB_append _ _ h

theorem lastNonSpaceB_cons (x : Char) (l : List Char)
    (h : lastNonSpaceB l = true) : lastNonSpaceB (x :: l) = true := by
  unfold lastNonSpaceB at *
  rw [List.reverse_cons]
  exact headNonSpaceB_append _ _ h

theorem headNonSpaceB_entryBody (r : Record) (c : Classification)
    (h : headNonSpaceB r.id = true) :
    headNonSpaceB (entryBody r c) = true :=
  headNonSpaceB_append _ _ h

theorem lastNonSpaceB_entryBody (r : Record) (c : Classification)
    (h : lastNonSpaceB c.category = true) :
    lastNonSpaceB (entryBody r c) = true := by
  unfold entryBody
  apply lastNonSpaceB_append
  apply lastNonSpaceB_cons
  apply lastNonSpaceB_append
  apply lastNonSpaceB_cons
  apply lastNonSpaceB_append
  apply lastNonSpaceB_cons
  apply lastNonSpaceB_append
  apply lastNonSpaceB_cons
  apply lastNonSpaceB_append
  apply lastNonSpaceB_cons
  exact h

theorem splitOnC_entryBody (r : Record) (c : Classification)
    (h1 : '\t' ∉ r.id) (h2 : '\t' ∉ r.text) (h3 : '\t' ∉ r.created)
    (h4 : '\t' ∉ r.modified) (h5 : '\t' ∉ c.reason) (h6 : '\t' ∉ c.category) :
    splitOnC '\t' (entryBody r c) =
      [r.id, r.text, r.created, r.modified, c.reason, c.category] := by
  unfold entryBody
  rw [splitOnC_append '\t' _ _ h1, splitOnC_append '\t' _ _ h2,
    splitOnC_append '\t' _ _ h3, splitOnC_append '\t' _ _ h4,
    splitOnC_append '\t' _ _ h5, splitOnC_of_not_mem '\t' _ h6]

theorem newline_not_mem_entryBody (r : Record) (c : Classification)
    (h1 : '\n' ∉ r.id) (h2 : '\n' ∉ r.text) (h3 : '\n' ∉ r.created)
    (h4 : '\n' ∉ r.modified) (h5 : '\n' ∉ c.reason) (h6 : '\n' ∉ c.category) :
    '\n' ∉ entryBody r c := by
  unfold entryBody
  intro hm
  simp only [List.mem_append, List.mem_cons] at hm
  rcases hm with h | h
  · exact h1 h
  rcases h with h | h
  · exact absurd h (by decide)
  rcases h with h | h
  · exact h2 h
  rcases h with h | h
  · exact absurd h (by decide)
  rcases h with h | h
  · exact h3 h
  rcases h with h | h
  · exact absurd h (by decide)
  rcases h with h | h
  · exact h4 h
  rcases h with h | h
  · exact absurd h (by decide)
  rcases h with h | h
  · exact h5 h
  rcases h with h | h
  · exact absurd h (by decide)
  · exact h6 h

theorem cleanRecordB_elim (r : Record) (h : cleanRecordB r = true) :
    ('\t' ∉ r.id ∧ '\n' ∉ r.id) ∧ headNonSpaceB r.id = true ∧
      '\t' ∉ r.text ∧ ('\t' ∉ r.created ∧ '\n' ∉ r.created) ∧
      ('\t' ∉ r.modified ∧ '\n' ∉ r.modified) := by
  simp only [cleanRecordB, noTabNlB, Bool.and_eq_true, decide_eq_true_eq] at h
  tauto

theorem cleanClsB_elim (c : Classification) (h : cleanClsB c = true) :
    ('\t' ∉ c.reason ∧ '\n' ∉ c.reason) ∧
      ('\t' ∉ c.category ∧ '\n' ∉ c.category) ∧
      lastNonSpaceB c.category = true := by
  simp only [cleanClsB, noTabNlB, Bool.and_eq_true, decide_eq_true_eq] at h
  tauto

/-- Round-trip of one stored line: for clean fields, the line-level strip
is the identity, the split recovers exactly the six written fields, and
the stored body contains no newline (so it stays one line). -/
theorem entryBody_roundtrip (r : Record) (c : Classification)
    (hr : cleanStoredB r = true) (hc : cleanClsB c = true) :
    pyStrip (entryBody r c) = entryBody r c ∧
      splitOnC '\t' (entryBody r c) =
        [r.id, r.text, r.created, r.modified, c.reason, c.category] ∧
      '\n' ∉ entryBody r c := by
  have hr2 : cleanRecordB r = true ∧ '\n' ∉ r.text := by
    simp only [cleanStoredB, Bool.and_eq_true, decide_eq_true_eq] at hr
    exact hr
  obtain ⟨hid, hidh, htext, hcr, hmo⟩ := cleanRecordB_elim r hr2.1
  obtain ⟨hre, hca, hcal⟩ := cleanClsB_elim c hc
  refine ⟨?_, ?_, ?_⟩
  · exact pyStrip_eq_self _ (headNonSpaceB_entryBody r c hidh)
      (lastNonSpaceB_entryBody r c hcal)
  · exact splitOnC_entryBody r c hid.1 htext hcr.1 hmo.1 hre.1 hca.1
  · exact newline_not_mem_entryBody r c hid.2 hr2.2 hcr.2 hmo.2 hre.2 hca.2

theorem parseLine_entryBody (r : Record) (c : Classification)
    (hr : cleanStoredB r = true) (hc : cleanClsB c = true) :
    parseLine (entryBody r c) = some r.id := by
  obtain ⟨h1, h2, _⟩ := entryBody_roundtrip r c hr hc
  unfold parseLine
  rw [h1, h2]

/-! ## Characterization of the load step -/

theorem parseLine_eq (l : List Char) :
    parseLine l =
      if (splitOnC '\t' (pyStrip l)).length = 6
      then some ((splitOnC '\t' (pyStrip l)).headD [])
      else none := by
  unfold parseLine
  rcases hs : splitOnC '\t' (pyStrip l) with _ | ⟨a, _ | ⟨b, _ | ⟨c, _ |
    ⟨d, _ | ⟨e, _ | ⟨f, _ | ⟨g, xs⟩⟩⟩⟩⟩⟩⟩ <;> simp

theorem loadIds_eq (ls : List (List Char)) :
    loadIds ls =
      if ls.all (fun l => (splitOnC '\t' (pyStrip l)).length == 6)
      then some (ls.map (fun l => (splitOnC '\t' (pyStrip l)).headD []))
      else none := by
  induction ls with
  | nil => rfl
  | cons l ls ih =>
    simp only [loadIds, parseLine_eq l, ih, List.all_cons, List.map_cons]
    by_cases h1 : (splitOnC '\t' (pyStrip l)).length = 6
    · by_cases h2 : ls.all (fun x => (splitOnC '\t' (pyStrip x)).length == 6) = true
      · simp [h1, h2]
      · simp only [Bool.not_eq_true] at h2
        simp [h1, h2]
    · simp [h1]

theorem loadIds_entries (ents : List (Record × Classification))
    (h : ∀ e ∈ ents, cleanStoredB e.1 = true ∧ cleanClsB e.2 = true) :
    loadIds (ents.map (fun e => entryBody e.1 e.2)) =
      some (ents.map (fun e => e.1.id)) := by
  induction ents with
  | nil => rfl
  | cons e es ih =>
    have he := h e (by simp)
    have hes : ∀ x ∈ es, cleanStoredB x.1 = true ∧ cleanClsB x.2 = true :=
      fun x hx => h x (by simp [hx])
    simp only [List.map_cons, loadIds,
      parseLine_entryBody e.1 e.2 he.1 he.2, ih hes]

/-- A store that is exactly a concatenation of clean entry lines parses
back to the list of the entries' ids. -/
theorem loadExistIds_entries (ents : List (Record × Classification))
    (h : ∀ e ∈ ents, cleanStoredB e.1 = true ∧ cleanClsB e.2 = true) :
    loadExistIds ((ents.map (fun e => entryLine e.1 e.2)).flatten) =
      some (ents.map (fun e => e.1.id)) := by
  unfold loadExistIds
  have hmap : ents.map (fun e => entryLine e.1 e.2) =
      (ents.map (fun e => entryBody e.1 e.2)).map (fun b => b ++ ['\n']) := by
    simp [entryLine, Function.comp]
  have hnl : ∀ b ∈ ents.map (fun e => entryBody e.1 e.2), '\n' ∉ b := by
    intro b hb
    simp only [List.mem_map] at hb
    obtain ⟨e, he, rfl⟩ := hb
    exact (entryBody_roundtrip e.1 e.2 (h e he).1 (h e he).2).2.2
  rw [hmap, fileLines_flatten _ hnl, loadIds_entries ents h]

/-- The parsed first fields of a clean entry-line store are the ids. -/
theorem storeIds_entries (ents : List (Record × Classification))
    (h : ∀ e ∈ ents, cleanStoredB e.1 = true ∧ cleanClsB e.2 = true) :
    storeIds ((ents.map (fun e => entryLine e.1 e.2)).flatten) =
      ents.map (fun e => e.1.id) := by
  unfold storeIds
  have hmap : ents.map (fun e => entryLine e.1 e.2) =
      (ents.map (fun e => entryBody e.1 e.2)).map (fun b => b ++ ['\n']) := by
    simp [entryLine, Function.comp]
  have hnl : ∀ b ∈ ents.map (fun e => entryBody e.1 e.2), '\n' ∉ b := by
    intro b hb
    simp only [List.mem_map] at hb
    obtain ⟨e, he, rfl⟩ := hb
    exact (entryBody_roundtrip e.1 e.2 (h e he).1 (h e he).2).2.2
  rw [hmap, fileLines_flatten _ hnl, List.map_map]
  apply List.map_congr_left
  intro e he
  obtain ⟨h1, h2, _⟩ := entryBody_roundtrip e.1 e.2 (h e he).1 (h e he).2
  simp [Function.comp, h1, h2]

/-! ## Properties of the failover rotation -/

theorem getD_mem_of_lt {α : Type} (l : List α) (n : Nat) (d : α)
    (h : n < l.length) : l.getD n d ∈ l := by
  induction l generalizing n with
  | nil => simp at h
  | cons x xs ih =>
    cases n with
    | zero => simp
    | succ m =>
      simp only [List.getD_cons_succ]
      exact List.mem_cons_of_mem _ (ih m (by simpa using h))

/-- When every credential in the pool fails, the rotation makes one
attempt per unit of fuel, visiting the pool cyclically from the start
index, and leaves the pointer advanced by the fuel modulo the pool size. -/
theorem rotateAttempts_all_fail (oracle : List Char → Option Classification)
    (pool : List (List Char)) (hfail : ∀ k ∈ pool, oracle k = none) :
    ∀ fuel idx, idx < pool.length →
      rotateAttempts oracle pool idx fuel =
        (none, (idx + fuel) % pool.length,
          (List.range fuel).map
            (fun j => pool.getD ((idx + j) % pool.length) []))
  | 0, idx, h => by
    simp [rotateAttempts, Nat.mod_eq_of_lt h]
  | fuel + 1, idx, h => by
    have hk : oracle (pool.getD idx []) = none :=
      hfail _ (getD_mem_of_lt pool idx [] h)
    have hpos : 0 < pool.length := Nat.lt_of_le_of_lt (Nat.zero_le idx) h
    have h2 : (idx + 1) % pool.length < pool.length := Nat.mod_lt _ hpos
    have ih := rotateAttempts_all_fail oracle pool hfail fuel
      ((idx + 1) % pool.length) h2
    have e2 : ((idx + 1) % pool.length + fuel) % pool.length =
        (idx + (fuel + 1)) % pool.length := by
      rw [Nat.mod_add_mod]
      have e : idx + 1 + fuel = idx + (fuel + 1) := by omega
      rw [e]
    have e3 : (List.range (fuel + 1)).map
        (fun j => pool.getD ((idx + j) % pool.length) []) =
        pool.getD idx [] :: (List.range fuel).map
          (fun j => pool.getD (((idx + 1) % pool.length + j) % pool.length) []) := by
      rw [List.range_succ_eq_map, List.map_cons, List.map_map]
      refine congrArg₂ _ ?_ ?_
      · rw [Nat.add_zero, Nat.mod_eq_of_lt h]
      · apply List.map_congr_left
        intro j _
        simp only [Function.comp, Nat.succ_eq_add_one]
        rw [Nat.mod_add_mod]
        have e : idx + (j + 1) = idx + 1 + j := by omega
        rw [e]
    simp only [rotateAttempts, hk, ih, e2, e3]

/-- One full cycle of attempts starting at `idx` visits the pool in
rotated order. -/
theorem range_map_getD_eq_rotate (pool : List (List Char)) (idx : Nat)
    (h : idx < pool.length) :
    (List.range pool.length).map
        (fun j => pool.getD ((idx + j) % pool.length) []) =
      pool.rotate idx := by
  apply List.ext_getElem
  · simp [List.length_rotate]
  · intro i h1 h2
    have hi : i < pool.length := by simpa using h1
    have hlt : (idx + i) % pool.length < pool.length :=
      Nat.mod_lt _ (Nat.lt_of_le_of_lt (Nat.zero_le idx) h)
    rw [List.getElem_map, List.getElem_range, List.getElem_rotate,
      List.getD_eq_getElem pool [] hlt]
    congr 1
    rw [Nat.add_comm idx i]

/-- A successful rotation result comes from the oracle succeeding on some
credential. -/
theorem rotateAttempts_some (oracle : List Char → Option Classification)
    (pool : List (List Char)) :
    ∀ fuel idx c, (rotateAttempts oracle pool idx fuel).1 = some c →
      ∃ k, oracle k = some c
  | 0, idx, c, h => by simp [rotateAttempts] at h
  | fuel + 1, idx, c, h => by
    revert h
    simp only [rotateAttempts]
    cases hk : oracle (pool.getD idx []) with
    | some c2 =>
      intro h
      exact ⟨pool.getD idx [], by rw [hk]; exact congrArg some (Option.some.inj h)⟩
    | none =>
      intro h
      exact rotateAttempts_some oracle pool fuel ((idx + 1) % pool.length) c h

/-- When the oracle succeeds immediately on the credential at the current
pointer, the rotation stops after one attempt and the pointer stays put. -/
theorem rotateAttempts_first_some (oracle : List Char → Option Classification)
    (pool : List (List Char)) (idx : Nat) (c : Classification)
    (hpool : pool ≠ []) (hc : oracle (pool.getD idx []) = some c) :
    rotateAttempts oracle pool idx pool.length =
      (some c, idx, [pool.getD idx []]) := by
  obtain ⟨m, hm⟩ : ∃ m, pool.length = m + 1 := by
    cases pool with
    | nil => exact absurd rfl hpool
    | cons x xs => exact ⟨xs.length, rfl⟩
  rw [hm]
  simp only [rotateAttempts]
  rw [hc]

/-! ## Driver-level lemmas -/

theorem sanitize_id (r : Record) : (sanitize r).id = r.id := rfl

theorem stepRecord_skip (classify : Record → List Char → Option Classification)
    (pool existIds : List (List Char)) (r0 : Record) (store : List Char)
    (keyIdx : Nat) (h : r0.id ∈ existIds) :
    stepRecord classify pool existIds r0 store keyIdx = (store, keyIdx, []) := by
  simp [stepRecord, sanitize_id, h]

/-- Records whose id is in the startup completed set contribute nothing:
the run behaves as if they were absent from the row source. -/
theorem runRecords_filter (classify : Record → List Char → Option Classification)
    (pool existIds : List (List Char)) :
    ∀ (records : List Record) (store : List Char) (idx : Nat),
      runRecords classify pool existIds records store idx =
        runRecords classify pool existIds
          (records.filter (fun r => !(decide (r.id ∈ existIds)))) store idx
  | [], _, _ => rfl
  | r :: rs, store, idx => by
    by_cases h : r.id ∈ existIds
    · have hs := stepRecord_skip classify pool existIds r store idx h
      have hf : (r :: rs).filter (fun x => !(decide (x.id ∈ existIds))) =
          rs.filter (fun x => !(decide (x.id ∈ existIds))) := by
        simp [List.filter_cons, h]
      rw [hf, ← runRecords_filter classify pool existIds rs store idx]
      simp [runRecords, hs]
    · have hf : (r :: rs).filter (fun x => !(decide (x.id ∈ existIds))) =
          r :: rs.filter (fun x => !(decide (x.id ∈ existIds))) := by
        simp [List.filter_cons, h]
      rw [hf]
      simp only [runRecords]
      rw [← runRecords_filter classify pool existIds rs]

/-- The store after a run is the initial store followed by the appended
entry lines, in order (the store is append-only within a run). -/
theorem runRecords_store (classify : Record → List Char → Option Classification)
    (pool existIds : List (List Char)) :
    ∀ (records : List Record) (store : List Char) (idx : Nat),
      (runRecords classify pool existIds records store idx).1 =
        store ++ ((appendedEntries classify pool existIds records idx).map
          (fun e => entryLine e.1 e.2)).flatten
  | [], store, idx => by simp [runRecords, appendedEntries]
  | r :: rs, store, idx => by
    by_cases h : (sanitize r).id ∈ existIds
    · simp only [runRecords, stepRecord, appendedEntries, if_pos h]
      exact runRecords_store classify pool existIds rs store idx
    · simp only [runRecords, stepRecord, appendedEntries, if_neg h]
      cases ha : (rotateAttempts (classify (sanitize r)) pool idx pool.length).1 with
      | none =>
        simp only [ha]
        exact runRecords_store classify pool existIds rs store _
      | some c =>
        simp only [ha, List.map_cons, List.flatten_cons]
        rw [runRecords_store classify pool existIds rs _ _, List.append_assoc]

/-- Attempt counting: total attempts of a run over a filtered-out list is
zero; more precisely if every record is skipped the run returns the store
unchanged, pointer unchanged, and zero attempts. -/
theorem runRecords_all_skipped (classify : Record → List Char → Option Classification)
    (pool existIds : List (List Char)) (records : List Record)
    (store : List Char) (idx : Nat)
    (h : ∀ r ∈ records, r.id ∈ existIds) :
    runRecords classify pool existIds records store idx = (store, idx, 0) := by
  have hf : records.filter (fun r => !(decide (r.id ∈ existIds))) = [] := by
    rw [List.filter_eq_nil_iff]
    intro r hr
    simp [h r hr]
  rw [runRecords_filter classify pool existIds records store idx, hf]
  rfl

/-- Every appended entry is a sanitized source record together with an
oracle success for it, and its id was not in the startup completed set. -/
theorem appendedEntries_mem (classify : Record → List Char → Option Classification)
    (pool existIds : List (List Char)) :
    ∀ (records : List Record) (idx : Nat),
      ∀ e ∈ appendedEntries classify pool existIds records idx,
        (∃ r ∈ records, e.1 = sanitize r) ∧
          (∃ k, classify e.1 k = some e.2) ∧ e.1.id ∉ existIds
  | [], _, e, he => by simp [appendedEntries] at he
  | r :: rs, idx, e, he => by
    revert he
    simp only [appendedEntries]
    by_cases h : (sanitize r).id ∈ existIds
    · rw [if_pos h]
      intro he
      obtain ⟨⟨r2, hr2, he2⟩, hk, hni⟩ :=
        appendedEntries_mem classify pool existIds rs idx e he
      exact ⟨⟨r2, List.mem_cons_of_mem _ hr2, he2⟩, hk, hni⟩
    · rw [if_neg h]
      cases ha : (rotateAttempts (classify (sanitize r)) pool idx pool.length).1 with
      | none =>
        intro he
        obtain ⟨⟨r2, hr2, he2⟩, hk, hni⟩ :=
          appendedEntries_mem classify pool existIds rs _ e he
        exact ⟨⟨r2, List.mem_cons_of_mem _ hr2, he2⟩, hk, hni⟩
      | some c =>
        intro he
        rcases List.mem_cons.mp he with he1 | he2
        · subst he1
          refine ⟨⟨r, List.mem_cons_self r rs, rfl⟩, ?_, h⟩
          exact rotateAttempts_some (classify (sanitize r)) pool pool.length idx c ha
        · obtain ⟨⟨r2, hr2, he3⟩, hk, hni⟩ :=
            appendedEntries_mem classify pool existIds rs _ e he2
          exact ⟨⟨r2, List.mem_cons_of_mem _ hr2, he3⟩, hk, hni⟩

/-- The appended ids form a sublist of the source ids: within one run no
record yields more than one entry. -/
theorem appendedEntries_ids_sublist (classify : Record → List Char → Option Classification)
    (pool existIds : List (List Char)) :
    ∀ (records : List Record) (idx : Nat),
      List.Sublist
        ((appendedEntries classify pool existIds records idx).map (fun e => e.1.id))
        (records.map (fun r => r.id))
  | [], _ => by simp [appendedEntries]
  | r :: rs, idx => by
    simp only [appendedEntries, List.map_cons]
    by_cases h : (sanitize r).id ∈ existIds
    · rw [if_pos h]
      exact (appendedEntries_ids_sublist classify pool existIds rs idx).cons _
    · rw [if_neg h]
      cases ha : (rotateAttempts (classify (sanitize r)) pool idx pool.length).1 with
      | none =>
        exact (appendedEntries_ids_sublist classify pool existIds rs _).cons _
      | some c =>
        simp only [List.map_cons]
        exact (appendedEntries_ids_sublist classify pool existIds rs _).cons₂ _

/-- When every classification attempt succeeds, the pointer never moves
and exactly the not-yet-completed records are appended, in source order,
each classified with the credential at the current pointer. -/
theorem appendedEntries_all_success (classify : Record → List Char → Option Classification)
    (cf : Record → List Char → Classification) (pool : List (List Char))
    (hpool : pool ≠ []) (hcf : ∀ r k, classify r k = some (cf r k))
    (existIds : List (List Char)) :
    ∀ (records : List Record) (idx : Nat),
      appendedEntries classify pool existIds records idx =
        (records.filter (fun r => !(decide (r.id ∈ existIds)))).map
          (fun r => (sanitize r, cf (sanitize r) (pool.getD idx [])))
  | [], _ => rfl
  | r :: rs, idx => by
    by_cases h : r.id ∈ existIds
    · have h2 : (sanitize r).id ∈ existIds := by rwa [sanitize_id]
      have hf : (r :: rs).filter (fun x => !(decide (x.id ∈ existIds))) =
          rs.filter (fun x => !(decide (x.id ∈ existIds))) := by
        simp [List.filter_cons, h]
      rw [hf]
      simp only [appendedEntries, if_pos h2]
      exact appendedEntries_all_success classify cf pool hpool hcf existIds rs idx
    · have h2 : (sanitize r).id ∉ existIds := by rwa [sanitize_id]
      have hf : (r :: rs).filter (fun x => !(decide (x.id ∈ existIds))) =
          r :: rs.filter (fun x => !(decide (x.id ∈ existIds))) := by
        simp [List.filter_cons, h]
      rw [hf]
      simp only [appendedEntries, if_neg h2]
      have hrot := rotateAttempts_first_some (classify (sanitize r)) pool idx
        (cf (sanitize r) (pool.getD idx [])) hpool (hcf _ _)
      rw [hrot]
      simp only [List.map_cons]
      rw [appendedEntries_all_success classify cf pool hpool hcf existIds rs idx]

/-! ## Multi-run invariant -/

/-- A run over a store made of clean entry lines loads it fully and
appends exactly the run's new entries after the old ones. -/
theorem runDeepseekTop_rep (classify : Record → List Char → Option Classification)
    (pool : List (List Char)) (records : List Record)
    (ents : List (Record × Classification))
    (hclean : ∀ e ∈ ents, cleanStoredB e.1 = true ∧ cleanClsB e.2 = true) :
    runDeepseekTop classify pool records
        (some ((ents.map (fun e => entryLine e.1 e.2)).flatten)) =
      some (((ents ++ appendedEntries classify pool
          (ents.map (fun e => e.1.id)) records 0).map
        (fun e => entryLine e.1 e.2)).flatten) := by
  unfold runDeepseekTop
  rw [Option.getD_some, loadExistIds_entries ents hclean]
  simp only []
  rw [runRecords_store classify pool _ records _ 0, List.map_append,
    List.flatten_append]

theorem sanitizeText_no_tab (s : List Char) (h : '\t' ∉ s) :
    '\t' ∉ sanitizeText s := by
  intro hm
  rcases List.mem_map.mp hm with ⟨a, ha, hae⟩
  by_cases han : a = '\n'
  · rw [if_pos han] at hae
    exact absurd hae (by decide)
  · rw [if_neg han] at hae
    exact h (hae ▸ ha)

theorem sanitizeText_no_newline (s : List Char) : '\n' ∉ sanitizeText s := by
  intro hm
  rcases List.mem_map.mp hm with ⟨a, ha, hae⟩
  by_cases han : a = '\n'
  · rw [if_pos han] at hae
    exact absurd hae (by decide)
  · rw [if_neg han] at hae
    exact han hae

theorem cleanStoredB_sanitize (r : Record) (h : cleanRecordB r = true) :
    cleanStoredB (sanitize r) = true := by
  obtain ⟨hid, hidh, htx, hcr, hmo⟩ := cleanRecordB_elim r h
  have h1 := sanitizeText_no_tab r.text htx
  have h2 := sanitizeText_no_newline r.text
  simp only [cleanStoredB, cleanRecordB, sanitize, noTabNlB, Bool.and_eq_true,
    decide_eq_true_eq]
  tauto

/-- Cleanliness is preserved for the entries a run appends. -/
theorem appended_clean (classify : Record → List Char → Option Classification)
    (pool existIds : List (List Char)) (records : List Record) (idx : Nat)
    (hrecs : ∀ r ∈ records, cleanRecordB r = true)
    (hcl : ∀ r k c, classify r k = some c → cleanClsB c = true) :
    ∀ e ∈ appendedEntries classify pool existIds records idx,
      cleanStoredB e.1 = true ∧ cleanClsB e.2 = true := by
  intro e he
  obtain ⟨⟨r, hr, he1⟩, ⟨k, hk⟩, _⟩ :=
    appendedEntries_mem classify pool existIds records idx e he
  constructor
  · rw [he1]
    exact cleanStoredB_sanitize r (hrecs r hr)
  · exact hcl e.1 k e.2 hk

/-- Iterated runs over clean records with clean classifier outputs keep
the store a concatenation of clean entry lines with pairwise-distinct ids. -/
theorem iterRuns_rep (pool : List (List Char)) (records : List Record)
    (hrecs : ∀ r ∈ records, cleanRecordB r = true)
    (hnodup : (records.map (fun r => r.id)).Nodup) :
    ∀ (fs : List (Record → List Char → Option Classification))
      (ents : List (Record × Classification)),
      (∀ f ∈ fs, ∀ r k c, f r k = some c → cleanClsB c = true) →
      (∀ e ∈ ents, cleanStoredB e.1 = true ∧ cleanClsB e.2 = true) →
      (ents.map (fun e => e.1.id)).Nodup →
      ∃ ents2 : List (Record × Classification),
        iterRuns pool records fs ((ents.map (fun e => entryLine e.1 e.2)).flatten) =
          ((ents2.map (fun e => entryLine e.1 e.2)).flatten) ∧
        (∀ e ∈ ents2, cleanStoredB e.1 = true ∧ cleanClsB e.2 = true) ∧
        (ents2.map (fun e => e.1.id)).Nodup
  | [], ents, _, hclean, hnd => ⟨ents, rfl, hclean, hnd⟩
  | f :: fs, ents, hfs, hclean, hnd => by
    have hf : ∀ r k c, f r k = some c → cleanClsB c = true :=
      hfs f (by simp)
    have hrun := runDeepseekTop_rep f pool records ents hclean
    have hdeltaclean := appended_clean f pool (ents.map (fun e => e.1.id))
      records 0 hrecs hf
    have hclean2 : ∀ e ∈ ents ++ appendedEntries f pool
        (ents.map (fun e => e.1.id)) records 0,
        cleanStoredB e.1 = true ∧ cleanClsB e.2 = true := by
      intro e he
      rcases List.mem_append.mp he with h | h
      · exact hclean e h
      · exact hdeltaclean e h
    have hnd2 : ((ents ++ appendedEntries f pool
        (ents.map (fun e => e.1.id)) records 0).map (fun e => e.1.id)).Nodup := by
      rw [List.map_append]
      refine List.Nodup.append hnd ?_ ?_
      · exact List.Nodup.sublist
          (appendedEntries_ids_sublist f pool (ents.map (fun e => e.1.id)) records 0)
          hnodup
      · intro a ha hb
        rcases List.mem_map.mp hb with ⟨e, he, hae⟩
        obtain ⟨_, _, hni⟩ :=
          appendedEntries_mem f pool (ents.map (fun e => e.1.id)) records 0 e he
        rw [hae] at hni
        exact hni ha
    obtain ⟨ents2, h1, h2, h3⟩ := iterRuns_rep pool records hrecs hnodup fs
      (ents ++ appendedEntries f pool (ents.map (fun e => e.1.id)) records 0)
      (fun g hg => hfs g (by simp [hg])) hclean2 hnd2
    refine ⟨ents2, ?_, h2, h3⟩
    simp only [iterRuns, hrun]
    exact h1

/-- Skip-if-present also holds for the single-credential driver of
run_gpt.py: completed records contribute nothing to the run. -/
theorem runGptRecords_filter (classify : Record → Option Classification)
    (existIds : List (List Char)) :
    ∀ (records : List Record) (store : List Char),
      runGptRecords classify existIds records store =
        runGptRecords classify existIds
          (records.filter (fun r => !(decide (r.id ∈ existIds)))) store
  | [], _ => rfl
  | r :: rs, store => by
    by_cases h : r.id ∈ existIds
    · have h2 : (sanitize r).id ∈ existIds := by rwa [sanitize_id]
      have hf : (r :: rs).filter (fun x => !(decide (x.id ∈ existIds))) =
          rs.filter (fun x => !(decide (x.id ∈ existIds))) := by
        simp [List.filter_cons, h]
      rw [hf, ← runGptRecords_filter classify existIds rs store]
      simp [runGptRecords, h2]
    · have h2 : (sanitize r).id ∉ existIds := by rwa [sanitize_id]
      have hf : (r :: rs).filter (fun x => !(decide (x.id ∈ existIds))) =
          r :: rs.filter (fun x => !(decide (x.id ∈ existIds))) := by
        simp [List.filter_cons, h]
      rw [hf]
      simp only [runGptRecords, if_neg h2]
      cases hc : classify (sanitize r) with
      | none => rfl
      | some c => exact runGptRecords_filter classify existIds rs _

theorem count_eq_one_of_nodup_mem {α : Type} [BEq α] [LawfulBEq α]
    (l : List α) (k : α) (hnd : l.Nodup) (hk : k ∈ l) : l.count k = 1 := by
  induction l with
  | nil => simp at hk
  | cons x xs ih =>
    have hx : x ∉ xs ∧ xs.Nodup := List.nodup_cons.mp hnd
    rw [List.count_cons]
    rcases List.mem_cons.mp hk with h | h
    · subst h
      have h0 : xs.count k = 0 := List.count_eq_zero.mpr hx.1
      simp [h0]
    · have hne : ¬ (x == k) = true := by
        intro hb
        exact hx.1 ((eq_of_beq hb) ▸ h)
      rw [ih hx.2 h]
      simp [hne]

theorem count_le_one_of_nodup {α : Type} [BEq α] [LawfulBEq α]
    (l : List α) (hnd : l.Nodup) (k : α) : l.count k ≤ 1 := by
  by_cases hk : k ∈ l
  · rw [count_eq_one_of_nodup_mem l k hnd hk]
  · rw [List.count_eq_zero.mpr hk]
    exact Nat.zero_le 1

/-! ## Claim theorems -/

/-- Claim C1: in the key-pool configuration, for a record whose id is not
in the completed set, if classification fails with every credential then
the store is unchanged for that record (no CompletionEntry appended),
the rotating pointer ends at the index it started from (it advanced
pool-size times modulo pool size), exactly pool-size attempts are made,
and each credential in the pool is tried exactly once. -/
theorem claim_C1 (classify : Record → List Char → Option Classification)
    (pool existIds : List (List Char)) (r : Record) (store : List Char)
    (keyIdx : Nat) (hidx : keyIdx < pool.length) (hnd : pool.Nodup)
    (hskip : r.id ∉ existIds)
    (hfail : ∀ k ∈ pool, classify (sanitize r) k = none) :
    (stepRecord classify pool existIds r store keyIdx).1 = store ∧
    (stepRecord classify pool existIds r store keyIdx).2.1 = keyIdx ∧
    ((stepRecord classify pool existIds r store keyIdx).2.2).length =
      pool.length ∧
    ((stepRecord classify pool existIds r store keyIdx).2.2).Perm pool ∧
    (∀ k ∈ pool,
      ((stepRecord classify pool existIds r store keyIdx).2.2).count k = 1) := by
  have h2 : (sanitize r).id ∉ existIds := by rwa [sanitize_id]
  have hrot := rotateAttempts_all_fail (classify (sanitize r)) pool hfail
    pool.length keyIdx hidx
  have hend : (keyIdx + pool.length) % pool.length = keyIdx := by
    rw [Nat.add_mod_right, Nat.mod_eq_of_lt hidx]
  have hstep : stepRecord classify pool existIds r store keyIdx =
      (store, keyIdx, (List.range pool.length).map
        (fun j => pool.getD ((keyIdx + j) % pool.length) [])) := by
    simp only [stepRecord, if_neg h2, hrot, hend]
  rw [hstep, range_map_getD_eq_rotate pool keyIdx hidx]
  refine ⟨rfl, rfl, List.length_rotate pool keyIdx, List.rotate_perm pool keyIdx, ?_⟩
  intro k hk
  show (pool.rotate keyIdx).count k = 1
  have hperm := List.rotate_perm pool keyIdx
  exact count_eq_one_of_nodup_mem _ k (hperm.nodup_iff.mpr hnd)
    (hperm.mem_iff.mpr hk)

/-- Witness for C1 at a concrete two-credential pool with an
always-failing classifier. -/
theorem claim_C1_witness :
    (stepRecord (fun _ _ => none) [['a'], ['b']] [] ⟨['1'], ['t'], ['c'], ['m']⟩
      [] 0).1 = [] ∧
    (stepRecord (fun _ _ => none) [['a'], ['b']] [] ⟨['1'], ['t'], ['c'], ['m']⟩
      [] 0).2.1 = 0 ∧
    ((stepRecord (fun _ _ => none) [['a'], ['b']] [] ⟨['1'], ['t'], ['c'], ['m']⟩
      [] 0).2.2).length = ([['a'], ['b']] : List (List Char)).length ∧
    ((stepRecord (fun _ _ => none) [['a'], ['b']] [] ⟨['1'], ['t'], ['c'], ['m']⟩
      [] 0).2.2).Perm [['a'], ['b']] ∧
    (∀ k ∈ ([['a'], ['b']] : List (List Char)),
      ((stepRecord (fun _ _ => none) [['a'], ['b']] []
        ⟨['1'], ['t'], ['c'], ['m']⟩ [] 0).2.2).count k = 1) :=
  claim_C1 (fun _ _ => none) [['a'], ['b']] [] ⟨['1'], ['t'], ['c'], ['m']⟩ [] 0
    (by decide) (by decide) (by decide) (fun _ _ => rfl)

/-- Claim C3: a record whose id is in the set loaded at startup is never
reclassified and nothing is appended for it: both drivers behave exactly
as if the completed records were absent from the row source (same final
store, same pointer, same attempt count, processing continuing in source
order). -/
theorem claim_C3 (classify : Record → List Char → Option Classification)
    (classifyG : Record → Option Classification)
    (pool existIds : List (List Char)) (records : List Record)
    (store : List Char) (idx : Nat) :
    runRecords classify pool existIds records store idx =
      runRecords classify pool existIds
        (records.filter (fun r => !(decide (r.id ∈ existIds)))) store idx ∧
    runGptRecords classifyG existIds records store =
      runGptRecords classifyG existIds
        (records.filter (fun r => !(decide (r.id ∈ existIds)))) store :=
  ⟨runRecords_filter classify pool existIds records store idx,
    runGptRecords_filter classifyG existIds records store⟩

/-- Claim C6 (code bug): at startup with a nonexistent store file,
run_gpt.py's unguarded read aborts the run instead of proceeding (no
store file is ever created before the first append), while
run_deepseek.py's guarded load proceeds with an empty completed set. -/
theorem claim_C6 :
    loadGpt none = none ∧
    loadDeepseek none = some [] ∧
    runDeepseekTop (fun _ _ => none) [] [] none = some [] := by decide

/-- Claim C7: loading the store succeeds exactly when every line, after
stripping, splits on tabs into exactly 6 fields, in which case it yields
the list of first fields; a failed load aborts the whole run before any
record is processed. -/
theorem claim_C7 (content : List Char)
    (classify : Record → List Char → Option Classification)
    (pool : List (List Char)) (records : List Record) :
    (loadExistIds content =
      if (fileLines content).all
          (fun l => (splitOnC '\t' (pyStrip l)).length == 6)
      then some ((fileLines content).map
        (fun l => (splitOnC '\t' (pyStrip l)).headD []))
      else none) ∧
    (loadExistIds content = none →
      runDeepseekTop classify pool records (some content) = none) := by
  constructor
  · exact loadIds_eq (fileLines content)
  · intro h
    unfold runDeepseekTop
    rw [Option.getD_some, h]

/-- Witness for C7: a one-field line is a fatal load error and the run
aborts. -/
theorem claim_C7_witness :
    runDeepseekTop (fun _ _ => none) [] [] (some ['b']) = none :=
  (claim_C7 ['b'] (fun _ _ => none) [] []).2 (by decide)

/-- Claim C9 (amended): the key pool contains exactly the distinct
non-blank stripped lines of the key-list file, without duplicates (the
file's duplicate lines are collapsed by the Python set, whose iteration
order is unspecified). -/
theorem claim_C9 (content : List Char) :
    (keyPoolOf content).Nodup ∧
    ∀ k, k ∈ keyPoolOf content ↔
      (k ≠ [] ∧ k ∈ (fileLines content).map pyStrip) := by
  refine ⟨List.nodup_dedup _, ?_⟩
  intro k
  unfold keyPoolOf
  rw [List.mem_dedup, List.mem_filter]
  constructor
  · rintro ⟨h1, h2⟩
    refine ⟨?_, h1⟩
    intro hk
    subst hk
    simp at h2
  · rintro ⟨h1, h2⟩
    refine ⟨h2, ?_⟩
    cases k with
    | nil => exact absurd rfl h1
    | cons x xs => rfl

/-- Counterexample to C9 as stated: a key file with a duplicated key line
yields a one-element pool, not the two-element ordered sequence of its
non-blank stripped lines. -/
theorem claim_C9_counterexample :
    ((fileLines ['A', '\n', 'A', '\n']).map pyStrip).filter
      (fun l => !l.isEmpty) = [['A'], ['A']] ∧
    keyPoolOf ['A', '\n', 'A', '\n'] = [['A']] := by decide

/-- Claim C10: the in-memory completed set is never extended during a
run: the appended ids are exactly the source ids outside the startup set,
with multiplicity, so a duplicated id in one run is classified and
appended twice.  (Stated under an always-succeeding classifier so that
every non-skipped record is in fact appended.) -/
theorem claim_C10 (classify : Record → List Char → Option Classification)
    (cf : Record → List Char → Classification) (pool existIds : List (List Char))
    (records : List Record) (idx : Nat) (hpool : pool ≠ [])
    (hcf : ∀ r k, classify r k = some (cf r k)) :
    (appendedEntries classify pool existIds records idx).map (fun e => e.1.id) =
      (records.filter (fun r => !(decide (r.id ∈ existIds)))).map
        (fun r => r.id) := by
  rw [appendedEntries_all_success classify cf pool hpool hcf existIds records idx,
    List.map_map]
  apply List.map_congr_left
  intro r _
  simp [Function.comp, sanitize_id]

/-- Witness for C10: a row source yielding the same id twice gets two
entries appended for it. -/
theorem claim_C10_witness :
    (appendedEntries (fun _ _ => some ⟨['r'], ['g']⟩) [['k']] []
        [⟨['1'], ['t'], ['c'], ['m']⟩, ⟨['1'], ['t'], ['c'], ['m']⟩] 0).map
      (fun e => e.1.id) =
      (([⟨['1'], ['t'], ['c'], ['m']⟩, ⟨['1'], ['t'], ['c'], ['m']⟩] :
          List Record).filter
        (fun r => !(decide (r.id ∈ ([] : List (List Char)))))).map
      (fun r => r.id) :=
  claim_C10 (fun _ _ => some ⟨['r'], ['g']⟩) (fun _ _ => ⟨['r'], ['g']⟩)
    [['k']] [] [⟨['1'], ['t'], ['c'], ['m']⟩, ⟨['1'], ['t'], ['c'], ['m']⟩] 0
    (by decide) (fun _ _ => rfl)

/-- Counterexample to C2 as stated: a successful classification whose
reason contains a tab produces a first-run store that the second run
cannot load (7 fields), so the second run aborts instead of skipping
every record. -/
theorem claim_C2_counterexample :
    runDeepseekTop (fun _ _ => some ⟨['a', '\t', 'b'], ['g']⟩) [['k']]
        [⟨['1'], ['t'], ['c'], ['m']⟩] (some []) =
      some ((runRecords (fun _ _ => some ⟨['a', '\t', 'b'], ['g']⟩) [['k']] []
        [⟨['1'], ['t'], ['c'], ['m']⟩] [] 0).1) ∧
    loadExistIds ((runRecords (fun _ _ => some ⟨['a', '\t', 'b'], ['g']⟩) [['k']]
        [] [⟨['1'], ['t'], ['c'], ['m']⟩] [] 0).1) = none ∧
    runDeepseekTop (fun _ _ => some ⟨['a', '\t', 'b'], ['g']⟩) [['k']]
        [⟨['1'], ['t'], ['c'], ['m']⟩]
        (some ((runRecords (fun _ _ => some ⟨['a', '\t', 'b'], ['g']⟩) [['k']] []
          [⟨['1'], ['t'], ['c'], ['m']⟩] [] 0).1)) = none := by decide

/-- Claim C2 (amended): for clean records and an always-succeeding
classifier with clean outputs, a first run from an empty store appends
every record, the resulting store loads back to exactly the source ids,
and a second run over the unchanged row source returns the same store
after zero classification attempts. -/
theorem claim_C2 (classify : Record → List Char → Option Classification)
    (cf : Record → List Char → Classification) (pool : List (List Char))
    (records : List Record) (hpool : pool ≠ [])
    (hcf : ∀ r k, classify r k = some (cf r k))
    (hrec : ∀ r ∈ records, cleanRecordB r = true)
    (hcl : ∀ r k, cleanClsB (cf r k) = true) :
    runDeepseekTop classify pool records (some []) =
      some (runRecords classify pool [] records [] 0).1 ∧
    loadExistIds (runRecords classify pool [] records [] 0).1 =
      some (records.map (fun r => r.id)) ∧
    runDeepseekTop classify pool records
        (some (runRecords classify pool [] records [] 0).1) =
      some (runRecords classify pool [] records [] 0).1 ∧
    (runRecords classify pool (records.map (fun r => r.id)) records
        (runRecords classify pool [] records [] 0).1 0).2.2 = 0 := by
  have hl0 : loadExistIds [] = some [] := by decide
  have hfilter : records.filter
      (fun r => !(decide (r.id ∈ ([] : List (List Char))))) = records := by
    rw [List.filter_eq_self]
    intro r _
    simp
  have hents : appendedEntries classify pool [] records 0 =
      records.map (fun r => (sanitize r, cf (sanitize r) (pool.getD 0 []))) := by
    rw [appendedEntries_all_success classify cf pool hpool hcf [] records 0,
      hfilter]
  have hentsclean : ∀ e ∈ records.map
      (fun r => (sanitize r, cf (sanitize r) (pool.getD 0 []))),
      cleanStoredB e.1 = true ∧ cleanClsB e.2 = true := by
    intro e he
    rcases List.mem_map.mp he with ⟨r, hr, rfl⟩
    exact ⟨cleanStoredB_sanitize r (hrec r hr), hcl _ _⟩
  have hids : (records.map
      (fun r => (sanitize r, cf (sanitize r) (pool.getD 0 [])))).map
        (fun e => e.1.id) = records.map (fun r => r.id) := by
    rw [List.map_map]
    apply List.map_congr_left
    intro r _
    simp [Function.comp, sanitize_id]
  have hstore : (runRecords classify pool [] records [] 0).1 =
      ((records.map (fun r => (sanitize r, cf (sanitize r)
        (pool.getD 0 [])))).map (fun e => entryLine e.1 e.2)).flatten := by
    rw [runRecords_store classify pool [] records [] 0, hents,
      List.nil_append]
  have hload1 : loadExistIds (runRecords classify pool [] records [] 0).1 =
      some (records.map (fun r => r.id)) := by
    rw [hstore, loadExistIds_entries _ hentsclean, hids]
  have hallin : ∀ r ∈ records, r.id ∈ records.map (fun x => x.id) := by
    intro r hr
    exact List.mem_map.mpr ⟨r, hr, rfl⟩
  have hrun2 := runRecords_all_skipped classify pool
    (records.map (fun x => x.id)) records
    (runRecords classify pool [] records [] 0).1 0 hallin
  refine ⟨?_, hload1, ?_, ?_⟩
  · unfold runDeepseekTop
    rw [Option.getD_some, hl0]
  · unfold runDeepseekTop
    rw [Option.getD_some, hload1]
    simp only []
    rw [hrun2]
  · rw [hrun2]

/-- Witness for C2 at a concrete one-record source and one-key pool. -/
theorem claim_C2_witness :
    runDeepseekTop (fun _ _ => some ⟨['r'], ['g']⟩) [['k']]
        [⟨['1'], ['t'], ['c'], ['m']⟩] (some []) =
      some (runRecords (fun _ _ => some ⟨['r'], ['g']⟩) [['k']] []
        [⟨['1'], ['t'], ['c'], ['m']⟩] [] 0).1 ∧
    loadExistIds (runRecords (fun _ _ => some ⟨['r'], ['g']⟩) [['k']] []
        [⟨['1'], ['t'], ['c'], ['m']⟩] [] 0).1 =
      some (([⟨['1'], ['t'], ['c'], ['m']⟩] : List Record).map
        (fun r => r.id)) ∧
    runDeepseekTop (fun _ _ => some ⟨['r'], ['g']⟩) [['k']]
        [⟨['1'], ['t'], ['c'], ['m']⟩]
        (some (runRecords (fun _ _ => some ⟨['r'], ['g']⟩) [['k']] []
          [⟨['1'], ['t'], ['c'], ['m']⟩] [] 0).1) =
      some (runRecords (fun _ _ => some ⟨['r'], ['g']⟩) [['k']] []
        [⟨['1'], ['t'], ['c'], ['m']⟩] [] 0).1 ∧
    (runRecords (fun _ _ => some ⟨['r'], ['g']⟩) [['k']]
        (([⟨['1'], ['t'], ['c'], ['m']⟩] : List Record).map (fun r => r.id))
        [⟨['1'], ['t'], ['c'], ['m']⟩]
        (runRecords (fun _ _ => some ⟨['r'], ['g']⟩) [['k']] []
          [⟨['1'], ['t'], ['c'], ['m']⟩] [] 0).1 0).2.2 = 0 :=
  claim_C2 (fun _ _ => some ⟨['r'], ['g']⟩) (fun _ _ => ⟨['r'], ['g']⟩) [['k']]
    [⟨['1'], ['t'], ['c'], ['m']⟩] (by decide) (fun _ _ => rfl) (by decide)
    (fun _ _ => rfl)

/-- Counterexample to C4 as stated: an id beginning with whitespace is
stored verbatim but loaded back stripped, so the next run fails to skip
it and appends a second entry for the same record — two runs over a
one-record source leave two store lines whose parsed id coincides. -/
theorem claim_C4_counterexample :
    (storeIds (iterRuns [['k']] [⟨[' ', 'x'], ['t'], ['c'], ['m']⟩]
        [fun _ _ => some ⟨['r'], ['g']⟩, fun _ _ => some ⟨['r'], ['g']⟩]
        [])).count ['x'] = 2 := by decide

/-- Claim C4 (amended): for a row source with pairwise-distinct clean ids
and classifier outputs whose fields are clean, after any number of
sequential runs every parsed id occurs at most once in the store; and
each run only ever appends to the store it was given (no post-hoc
rewriting or dedup). -/
theorem claim_C4 (pool : List (List Char)) (records : List Record)
    (fs : List (Record → List Char → Option Classification))
    (hrecs : ∀ r ∈ records, cleanRecordB r = true)
    (hnodup : (records.map (fun r => r.id)).Nodup)
    (hcl : ∀ f ∈ fs, ∀ r k c, f r k = some c → cleanClsB c = true) :
    (∀ i, (storeIds (iterRuns pool records fs [])).count i ≤ 1) ∧
    (∀ (f : Record → List Char → Option Classification) (s : List Char),
      ∃ t, (runDeepseekTop f pool records (some s)).getD s = s ++ t) := by
  constructor
  · obtain ⟨ents2, h1, h2, h3⟩ := iterRuns_rep pool records hrecs hnodup fs []
      hcl (by simp) (by simp)
    simp only [List.map_nil, List.flatten_nil] at h1
    intro i
    rw [h1, storeIds_entries ents2 h2]
    exact count_le_one_of_nodup _ h3 i
  · intro f s
    cases hl : loadExistIds s with
    | none =>
      refine ⟨[], ?_⟩
      unfold runDeepseekTop
      rw [Option.getD_some, hl]
      simp
    | some ids =>
      refine ⟨((appendedEntries f pool ids records 0).map
        (fun e => entryLine e.1 e.2)).flatten, ?_⟩
      unfold runDeepseekTop
      rw [Option.getD_some, hl]
      simp only [Option.getD_some]
      exact runRecords_store f pool ids records s 0

/-- Witness for C4 at a concrete clean one-record source over two runs. -/
theorem claim_C4_witness :
    (∀ i, (storeIds (iterRuns [['k']] [⟨['1'], ['t'], ['c'], ['m']⟩]
      [fun _ _ => some ⟨['r'], ['g']⟩] [])).count i ≤ 1) ∧
    (∀ (f : Record → List Char → Option Classification) (s : List Char),
      ∃ t, (runDeepseekTop f [['k']] [⟨['1'], ['t'], ['c'], ['m']⟩]
        (some s)).getD s = s ++ t) :=
  claim_C4 [['k']] [⟨['1'], ['t'], ['c'], ['m']⟩]
    [fun _ _ => some ⟨['r'], ['g']⟩] (by decide) (by decide)
    (by
      intro f hf r k c h
      rcases List.mem_singleton.mp hf with rfl
      injection h with h2
      rw [← h2]
      rfl)

/-- Counterexample to C5 as stated: a successful classification whose
reason contains a tab is appended verbatim, producing a stored line with
7 tab-separated fields instead of 6. -/
theorem claim_C5_counterexample :
    (stepRecord (fun _ _ => some ⟨['a', '\t', 'b'], ['g']⟩) [['k']] []
        ⟨['1'], ['t'], ['c'], ['m']⟩ [] 0).1 =
      entryLine ⟨['1'], ['t'], ['c'], ['m']⟩ ⟨['a', '\t', 'b'], ['g']⟩ ∧
    (splitOnC '\t' (pyStrip (entryBody ⟨['1'], ['t'], ['c'], ['m']⟩
      ⟨['a', '\t', 'b'], ['g']⟩))).length = 7 := by decide

/-- Claim C5 (amended): newlines in `text` are replaced by spaces before
the record is used or stored; any write is of exactly one entry line for
the sanitized record; and provided the remaining fields contain no tab or
newline (which the code does not enforce), the stored line splits back
into exactly the 6 written fields. -/
theorem claim_C5 (r : Record) (c : Classification)
    (hr : cleanRecordB r = true) (hc : cleanClsB c = true) :
    '\n' ∉ (sanitize r).text ∧
    (sanitize r).text = r.text.map (fun ch => if ch = '\n' then ' ' else ch) ∧
    splitOnC '\t' (pyStrip (entryBody (sanitize r) c)) =
      [r.id, sanitizeText r.text, r.created, r.modified, c.reason, c.category] ∧
    (splitOnC '\t' (pyStrip (entryBody (sanitize r) c))).length = 6 ∧
    (∀ (classify : Record → List Char → Option Classification)
      (pool existIds : List (List Char)) (store : List Char) (idx : Nat),
      (stepRecord classify pool existIds r store idx).1 = store ∨
      ∃ c2, (stepRecord classify pool existIds r store idx).1 =
        store ++ entryLine (sanitize r) c2) := by
  obtain ⟨h1, h2, h3⟩ := entryBody_roundtrip (sanitize r) c
    (cleanStoredB_sanitize r hr) hc
  refine ⟨sanitizeText_no_newline r.text, rfl, ?_, ?_, ?_⟩
  · rw [h1, h2]
    rfl
  · rw [h1, h2]
    rfl
  · intro classify pool existIds store idx
    by_cases h : (sanitize r).id ∈ existIds
    · left
      simp [stepRecord, h]
    · cases ha : (rotateAttempts (classify (sanitize r)) pool idx
        pool.length).1 with
      | none =>
        left
        simp [stepRecord, if_neg h, ha]
      | some c2 =>
        right
        refine ⟨c2, ?_⟩
        simp [stepRecord, if_neg h, ha]

/-- Witness for C5 at concrete clean fields with a newline in the text. -/
theorem claim_C5_witness :
    '\n' ∉ (sanitize ⟨['1'], ['t', '\n', 'u'], ['c'], ['m']⟩).text ∧
    (sanitize ⟨['1'], ['t', '\n', 'u'], ['c'], ['m']⟩).text =
      (['t', '\n', 'u'].map (fun ch => if ch = '\n' then ' ' else ch)) ∧
    splitOnC '\t' (pyStrip (entryBody
        (sanitize ⟨['1'], ['t', '\n', 'u'], ['c'], ['m']⟩) ⟨['r'], ['g']⟩)) =
      [['1'], sanitizeText ['t', '\n', 'u'], ['c'], ['m'], ['r'], ['g']] ∧
    (splitOnC '\t' (pyStrip (entryBody
        (sanitize ⟨['1'], ['t', '\n', 'u'], ['c'], ['m']⟩)
        ⟨['r'], ['g']⟩))).length = 6 ∧
    (∀ (classify : Record → List Char → Option Classification)
      (pool existIds : List (List Char)) (store : List Char) (idx : Nat),
      (stepRecord classify pool existIds ⟨['1'], ['t', '\n', 'u'], ['c'], ['m']⟩
        store idx).1 = store ∨
      ∃ c2, (stepRecord classify pool existIds
        ⟨['1'], ['t', '\n', 'u'], ['c'], ['m']⟩ store idx).1 =
        store ++ entryLine (sanitize ⟨['1'], ['t', '\n', 'u'], ['c'], ['m']⟩) c2) :=
  claim_C5 ⟨['1'], ['t', '\n', 'u'], ['c'], ['m']⟩ ⟨['r'], ['g']⟩
    (by decide) (by decide)

/-- Counterexample to C8 as stated: a payload with category outside the
seven labels passes validation (shape only) and does produce a stored
CompletionEntry. -/
theorem claim_C8_counterexample :
    validatePayload ⟨some ['r'], some ['z', 'z']⟩ = some ⟨['r'], ['z', 'z']⟩ ∧
    ['z', 'z'] ∉ sevenCategories ∧
    (stepRecord (fun _ _ => some ⟨['r'], ['z', 'z']⟩) [['k']] []
        ⟨['1'], ['t'], ['c'], ['m']⟩ [] 0).1 =
      entryLine ⟨['1'], ['t'], ['c'], ['m']⟩ ⟨['r'], ['z', 'z']⟩ := by decide

/-- Claim C8 (amended): the returned payload is validated against the
two-string-field shape only (both fields present), and any validated
classification — whatever its category string — is appended as a
CompletionEntry when the record is processed successfully. -/
theorem claim_C8 (p : RawPayload) (c0 : Classification)
    (classify : Record → List Char → Option Classification)
    (pool existIds : List (List Char)) (r : Record) (store : List Char)
    (idx : Nat) (c : Classification) (hpool : pool ≠ [])
    (hc : classify (sanitize r) (pool.getD idx []) = some c)
    (hskip : r.id ∉ existIds) :
    (validatePayload p = some c0 ↔
      p.reason = some c0.reason ∧ p.category = some c0.category) ∧
    (stepRecord classify pool existIds r store idx).1 =
      store ++ entryLine (sanitize r) c := by
  constructor
  · rcases p with ⟨pr, pc⟩
    rcases c0 with ⟨cr, cc⟩
    cases pr <;> cases pc <;> simp [validatePayload]
  · have h2 : (sanitize r).id ∉ existIds := by rwa [sanitize_id]
    have hrot := rotateAttempts_first_some (classify (sanitize r)) pool idx c
      hpool hc
    simp [stepRecord, if_neg h2, hrot]

/-- Witness for C8 at a concrete payload and record. -/
theorem claim_C8_witness :
    (validatePayload ⟨some ['r'], some ['z']⟩ = some (⟨['r'], ['z']⟩ : Classification) ↔
      (some ['r'] : Option (List Char)) = some (⟨['r'], ['z']⟩ : Classification).reason ∧
      (some ['z'] : Option (List Char)) = some (⟨['r'], ['z']⟩ : Classification).category) ∧
    (stepRecord (fun _ _ => some ⟨['r'], ['z']⟩) [['k']] []
        ⟨['1'], ['t'], ['c'], ['m']⟩ [] 0).1 =
      [] ++ entryLine (sanitize ⟨['1'], ['t'], ['c'], ['m']⟩) ⟨['r'], ['z']⟩ :=
  claim_C8 ⟨some ['r'], some ['z']⟩ ⟨['r'], ['z']⟩
    (fun _ _ => some ⟨['r'], ['z']⟩) [['k']] [] ⟨['1'], ['t'], ['c'], ['m']⟩
    [] 0 ⟨['r'], ['z']⟩ (by decide) rfl (by decide)

end Drivel
